import Mathlib

/-!
Verification of the iocrypter streaming authenticated-encryption core.

Shallow embedding of the Go package `iocrypter`: byte streams are `List Byte`,
fallible operations return `Except CrypterErr`, and the trusted external
cryptographic primitives (Argon2id, the AES-CTR keystream and HMAC-SHA512)
are taken as explicit function parameters, so every theorem holds for any
instantiation of those primitives.
-/

namespace Iocrypter

/-- A byte, as in Go's `byte` type. -/
abbrev Byte := Fin 256

/-- Decidable equality for `Except`, used to evaluate operation results on
concrete inputs. -/
instance {ε α : Type} [DecidableEq ε] [DecidableEq α] : DecidableEq (Except ε α) :=
  fun a b =>
    match a, b with
    | .ok x, .ok y =>
      if h : x = y then .isTrue (by rw [h])
      else .isFalse (by intro hc; cases hc; exact h rfl)
    | .error x, .error y =>
      if h : x = y then .isTrue (by rw [h])
      else .isFalse (by intro hc; cases hc; exact h rfl)
    | .ok _, .error _ => .isFalse (by intro hc; cases hc)
    | .error _, .ok _ => .isFalse (by intro hc; cases hc)

/-- Size in bytes of the HMAC output (`sha512.Size`), from `iocryptor.go`. -/
def hmacSize : Nat := 64

/-- Size in bytes of the HMAC key, from `iocryptor.go`. -/
def hmacKeySize : Nat := 32

/-- Size in bytes of the salt, from `iocryptor.go`. -/
def saltSize : Nat := 32

/-- Size in bytes of the AES-256 key, from `iocryptor.go`. -/
def aesKeySize : Nat := 32

/-- AES block size in bytes (`aes.BlockSize`), from `iocryptor.go`. -/
def blockSize : Nat := 16

/-- Chunk size for the decrypter's lookahead loop, from `iocryptor.go`. -/
def chunkSize : Nat := 4096

/-- Length in bytes of the serialized Argon2 settings (9 bytes:
memory little-endian u32, threads u8, time little-endian u32). -/
def serializedSettingsLength : Nat := 9

/-- Default Argon2 memory cost in KiB, from `iocryptor.go`. -/
def defaultArgon2Memory : Nat := 64 * 1024

/-- Default Argon2 time cost, from `iocryptor.go`. -/
def defaultArgon2Time : Nat := 3

/-- Default Argon2 thread count, from `iocryptor.go`. -/
def defaultArgon2Threads : Byte := 4

/-- The error taxonomy of the package (`iocryptor.go`, `decrypter.go`,
`encrypter.go`).  The Go code wraps underlying I/O errors with stage labels
(reading the settings, the salt, the IV); those wrapped stages are modelled
as distinct constructors. -/
inductive CrypterErr where
  | passPhraseEmpty
  | truncatedSettings
  | readSettingsFailed
  | readSaltFailed
  | readIVFailed
  | tooLessRounds
  | missingData
  | failedAuthentication
  | writeAfterRead
deriving DecidableEq, Repr

/-- Argon2 key-derivation parameters (`Argon2Settings` in `argon2.go`).
`Time` and `Memory` are Go `uint32` values (theorems carry the `< 2 ^ 32`
bounds where they matter); `Threads` is a Go `uint8`. -/
structure Argon2Settings where
  Time : Nat
  Memory : Nat
  Threads : Byte
deriving DecidableEq, Repr

/-- The value of four bytes read as a little-endian u32 (`binary.Read` with
`binary.LittleEndian`). -/
def leVal (a b c d : Byte) : Nat :=
  a.val + 256 * b.val + 65536 * c.val + 16777216 * d.val

/-- The four little-endian bytes of a u32 (`binary.Write` with
`binary.LittleEndian`). -/
def toLE32 (n : Nat) : List Byte :=
  [⟨n % 256, by omega⟩, ⟨n / 256 % 256, by omega⟩,
   ⟨n / 65536 % 256, by omega⟩, ⟨n / 16777216 % 256, by omega⟩]

/-- `Argon2Settings.Encode` from `argon2.go`: memory (little-endian u32),
then threads (one byte), then time (little-endian u32) — 9 bytes in total.
The Go error path (a failing `binary.Write` into a `bytes.Buffer`) cannot
fire for these fixed-width fields, so the embedding is total. -/
def Argon2Settings.Encode (a : Argon2Settings) : List Byte :=
  toLE32 a.Memory ++ a.Threads :: toLE32 a.Time

/-- `DeserializeSettings` from `argon2.go`: three staged `binary.Read`
steps (memory u32, threads u8, time u32); any stage finding too few bytes
fails.  All three staged failures carry the truncated-settings error kind. -/
def DeserializeSettings (b : List Byte) : Except CrypterErr Argon2Settings :=
  match b with
  | m0 :: m1 :: m2 :: m3 :: rest1 =>
    match rest1 with
    | th :: rest2 =>
      match rest2 with
      | t0 :: t1 :: t2 :: t3 :: _ => .ok ⟨leVal t0 t1 t2 t3, leVal m0 m1 m2 m3, th⟩
      | _ => .error .truncatedSettings
    | _ => .error .truncatedSettings
  | _ => .error .truncatedSettings

/-- Modelled from the spec: the settings decoder of the external
`github.com/wneessen/argon2` package (`wa.SettingsFromBytes`, called by the
decrypter's `readParameters`; the package source is not part of this
repository).  Per the spec's wire format it decodes the same 9-byte layout
as `DeserializeSettings` — memory little-endian u32, threads u8, time
little-endian u32 — without any semantic validation and without failing. -/
def SettingsFromBytes (b : List Byte) : Argon2Settings :=
  match b with
  | m0 :: m1 :: m2 :: m3 :: th :: t0 :: t1 :: t2 :: t3 :: _ =>
      ⟨leVal t0 t1 t2 t3, leVal m0 m1 m2 m3, th⟩
  | _ => ⟨0, 0, 0⟩

/-- Interface of the Argon2id primitive `argon2.IDKey` (trusted external
building block): password, salt, time, memory, threads, and requested
output length. -/
abbrev IdKey := List Byte → List Byte → Nat → Nat → Byte → Nat → List Byte

/-- Interface of the AES-CTR keystream (trusted external building block):
the byte at a given stream position, determined by the AES key and the IV. -/
abbrev KeyStream := List Byte → List Byte → Nat → Byte

/-- Interface of the keyed-hash primitive (HMAC-SHA512, trusted external
building block): MAC key and message to 64-byte digest. -/
abbrev MacFn := List Byte → List Byte → List Byte

/-- The output length the code requests from Argon2: `saltSize + hmacSize`
in `DeriveKeys` (`argon2.go`). -/
def derivedKeyRequestLength : Nat := saltSize + hmacSize

/-- `DeriveKeys` from `argon2.go`: one Argon2id invocation requesting
`saltSize + hmacSize` bytes, split as `key[:aesKeySize]` for the AES key and
`key[aesKeySize : hmacKeySize+aesKeySize]` for the HMAC key. -/
def DeriveKeys (idKey : IdKey) (password salt : List Byte)
    (settings : Argon2Settings) : List Byte × List Byte :=
  let key := idKey password salt settings.Time settings.Memory settings.Threads
    derivedKeyRequestLength
  (key.take aesKeySize, (key.take (hmacKeySize + aesKeySize)).drop aesKeySize)

/-- The `hashReadWriter` type from `hash.go`: an `io.ReadWriter` over a
`hash.Hash`.  The underlying hash is modelled by the bytes written into it
(`written`) together with its finalization function (`mac`, standing for
`hash.Sum(nil)` over the written bytes); `checksum` holds the digest bytes
still to be served once reading has begun. -/
structure HashReadWriter where
  mac : List Byte → List Byte
  written : List Byte
  done : Bool
  checksum : List Byte

/-- `NewHashReadWriter` from `hash.go`. -/
def NewHashReadWriter (mac : List Byte → List Byte) : HashReadWriter :=
  { mac := mac, written := [], done := false, checksum := [] }

/-- `hashReadWriter.Write` from `hash.go`: fails with the write-after-read
error once `done` is set, otherwise feeds the underlying hash. -/
def HashReadWriter.write (h : HashReadWriter) (p : List Byte) :
    Except CrypterErr HashReadWriter :=
  if h.done then .error .writeAfterRead
  else .ok { h with written := h.written ++ p }

/-- `hashReadWriter.Read` from `hash.go`: the first read finalizes the hash
into the checksum reader and sets `done`; every read serves the next `n`
digest bytes. -/
def HashReadWriter.read (h : HashReadWriter) (n : Nat) :
    List Byte × HashReadWriter :=
  if h.done then (h.checksum.take n, { h with checksum := h.checksum.drop n })
  else
    let digest := h.mac h.written
    (digest.take n, { h with done := true, checksum := digest.drop n })

/-- Draining a `hashReadWriter` to end of stream (`io.Copy` reading it until
exhaustion): finalizes on the first read and yields the whole digest. -/
def HashReadWriter.readAll (h : HashReadWriter) : List Byte × HashReadWriter :=
  if h.done then (h.checksum, { h with checksum := [] })
  else
    let digest := h.mac h.written
    (digest, { h with done := true, checksum := [] })

/-- The CTR transform (`cipher.StreamReader` with `cipher.NewCTR`): each
byte of the stream is XORed with the keystream byte at its position. -/
def ctrXor (s : Nat → Byte) : Nat → List Byte → List Byte
  | _, [] => []
  | i, b :: bs =>
      ⟨b.val ^^^ (s i).val,
        Nat.xor_lt_two_pow (n := 8) b.isLt (s i).isLt⟩ :: ctrXor s (i + 1) bs

/-- `readParameters` from `decrypter.go`: empty-password check, then read
9 settings bytes, decode them (`wa.SettingsFromBytes`), read the salt
(`settings.SaltLength`, per the spec the fixed 32-byte salt size), read the
16-byte IV, assemble the header, check `settings.Time < 1`, and finally
derive the keys.  Returns (AES key, HMAC key, IV, header bytes) along with
the unread remainder of the stream (the state the Go reader is left in). -/
def readParameters (idKey : IdKey) (input password : List Byte) :
    Except CrypterErr (List Byte × List Byte × List Byte × List Byte × List Byte) :=
  if password.length = 0 then .error .passPhraseEmpty
  else if input.length < serializedSettingsLength then .error .readSettingsFailed
  else
    let settingsSerialized := input.take serializedSettingsLength
    let rest1 := input.drop serializedSettingsLength
    let settings := SettingsFromBytes settingsSerialized
    if rest1.length < saltSize then .error .readSaltFailed
    else
      let salt := rest1.take saltSize
      let rest2 := rest1.drop saltSize
      if rest2.length < blockSize then .error .readIVFailed
      else
        let iv := rest2.take blockSize
        let rest3 := rest2.drop blockSize
        let header := settingsSerialized ++ salt ++ iv
        if settings.Time < 1 then .error .tooLessRounds
        else
          let keys := DeriveKeys idKey password salt settings
          .ok (keys.1, keys.2, iv, header, rest3)

/-- The decrypter's chunked lookahead loop from `decrypter.go` (`NewDecrypter`):
while a full `chunkSize` peek succeeds, consume `chunkSize - hmacSize` bytes
into the persistent store and the digest sink (`stored`); at end of stream,
with `rest` bytes buffered, fail with the missing-data error when
`rest < hmacSize`, otherwise the last `hmacSize` bytes are the claimed
checksum and the preceding bytes are fed to the store and the sink. -/
def processChunks (stored rest : List Byte) :
    Except CrypterErr (List Byte × List Byte) :=
  if _h : chunkSize ≤ rest.length then
    processChunks (stored ++ rest.take (chunkSize - hmacSize))
      (rest.drop (chunkSize - hmacSize))
  else if rest.length < hmacSize then .error .missingData
  else .ok (stored ++ rest.take (rest.length - hmacSize),
    rest.drop (rest.length - hmacSize))
termination_by rest.length
decreasing_by
  simp only [List.length_drop]
  have h1 : chunkSize = 4096 := rfl
  have h2 : hmacSize = 64 := rfl
  omega

/-- The body phase of `NewDecrypter` starting from an empty persistent store. -/
def processBody (rest : List Byte) : Except CrypterErr (List Byte × List Byte) :=
  processChunks [] rest

/-- `NewDecrypter` from `decrypter.go`: read and validate the parameters,
feed the header to the digest sink, run the chunked lookahead loop, compare
the computed digest against the claimed checksum (`hmac.Equal`, mismatch
fails with the authentication error), and only then wrap the stored
ciphertext with the CTR transform as the verified plaintext stream. -/
def NewDecrypter (idKey : IdKey) (ks : KeyStream) (mac : MacFn)
    (input password : List Byte) : Except CrypterErr (List Byte) :=
  match readParameters idKey input password with
  | .error e => .error e
  | .ok (aesKey, hmacKey, iv, header, rest) =>
    match processBody rest with
    | .error e => .error e
    | .ok (stored, checksum) =>
      if mac hmacKey (header ++ stored) = checksum then
        .ok (ctrXor (ks aesKey iv) 0 stored)
      else .error .failedAuthentication

/-- `NewEncrypterWithSettings` from `encrypter.go`, with the two random
draws (salt and IV) passed in as the `salt` and `iv` arguments.  The
returned reader `io.MultiReader(io.TeeReader(io.MultiReader(headerReader,
streamReader), hmacRW), hmacRW)` is modelled by its full drain: the tee
writes the header and then the body into the digest sink while emitting
them, and once they are exhausted the sink's sealed digest follows.
The wire encoding of the settings (`wa.Settings.Serialize` of the external
argon2 package) is, per the spec's wire format, the same 9-byte layout as
`Argon2Settings.Encode`. -/
def NewEncrypterWithSettings (idKey : IdKey) (ks : KeyStream) (mac : MacFn)
    (r password : List Byte) (memory time : Nat) (threads : Byte)
    (salt iv : List Byte) : Except CrypterErr (List Byte) :=
  let settings : Argon2Settings := ⟨time, memory, threads⟩
  let settingsSerialized := settings.Encode
  let keys := DeriveKeys idKey password salt settings
  let header := settingsSerialized ++ salt ++ iv
  let body := ctrXor (ks keys.1 iv) 0 r
  let hmacReadWriter := NewHashReadWriter (mac keys.2)
  match hmacReadWriter.write header with
  | .error e => .error e
  | .ok h1 =>
    match h1.write body with
    | .error e => .error e
    | .ok h2 => .ok (header ++ body ++ (h2.readAll).1)

/-- `NewEncrypter` from `encrypter.go`: reject an empty passphrase, then
delegate to `NewEncrypterWithSettings` with the default Argon2 settings. -/
def NewEncrypter (idKey : IdKey) (ks : KeyStream) (mac : MacFn)
    (r pass salt iv : List Byte) : Except CrypterErr (List Byte) :=
  if pass.length = 0 then .error .passPhraseEmpty
  else NewEncrypterWithSettings idKey ks mac r pass defaultArgon2Memory
    defaultArgon2Time defaultArgon2Threads salt iv

/-- A trivial Argon2 instantiation used to evaluate the theorems on
concrete inputs: the requested number of zero bytes. -/
def idKeyZero : IdKey := fun _ _ _ _ _ n => List.replicate n 0

/-- A trivial keystream instantiation: the all-zero keystream. -/
def ksZero : KeyStream := fun _ _ _ => 0

/-- A trivial keyed-hash instantiation: the constant all-zero digest. -/
def macZero : MacFn := fun _ _ => List.replicate hmacSize 0

/-- An Argon2 instantiation that records the requested output length in
every output byte, making the length the code asks for observable. -/
def idKeyProbe : IdKey := fun _ _ _ _ _ n => List.replicate n ⟨n % 256, by omega⟩

/-- A concrete hash finalization used to evaluate the digest sink-source on
concrete inputs: append a terminator byte to the written bytes. -/
def macProbe : List Byte → List Byte := fun l => l ++ [1]

/-- A concrete accumulating digest sink-source with one byte written. -/
def hrw0 : HashReadWriter :=
  { mac := macProbe, written := [2], done := false, checksum := [] }

theorem encode_length (s : Argon2Settings) :
    s.Encode.length = serializedSettingsLength := by
  simp [Argon2Settings.Encode, toLE32, serializedSettingsLength]

theorem toLE32_leVal (a b c d : Byte) : toLE32 (leVal a b c d) = [a, b, c, d] := by
  have ha := a.isLt; have hb := b.isLt; have hc := c.isLt; have hd := d.isLt
  simp only [toLE32, leVal, List.cons.injEq, Fin.ext_iff]
  refine ⟨by omega, by omega, by omega, by omega, trivial⟩

theorem settingsFromBytes_encode (s : Argon2Settings) (ht : s.Time < 2 ^ 32)
    (hm : s.Memory < 2 ^ 32) : SettingsFromBytes s.Encode = s := by
  obtain ⟨t, m, th⟩ := s
  simp only [Argon2Settings.Encode, toLE32, List.cons_append, List.nil_append]
  simp only [SettingsFromBytes, leVal, Argon2Settings.mk.injEq]
  refine ⟨by simp at ht ⊢; omega, by simp at hm ⊢; omega, trivial⟩

theorem ctrXor_length (s : Nat → Byte) :
    ∀ (i : Nat) (l : List Byte), (ctrXor s i l).length = l.length := by
  intro i l
  induction l generalizing i with
  | nil => simp [ctrXor]
  | cons b bs ih => simp [ctrXor, ih]

theorem ctrXor_ctrXor (s : Nat → Byte) :
    ∀ (i : Nat) (l : List Byte), ctrXor s i (ctrXor s i l) = l := by
  intro i l
  induction l generalizing i with
  | nil => simp [ctrXor]
  | cons b bs ih =>
    simp only [ctrXor, List.cons.injEq]
    exact ⟨Fin.ext (Nat.xor_cancel_right _ _), ih (i + 1)⟩

theorem processChunks_missing (stored rest : List Byte)
    (h : rest.length < hmacSize) :
    processChunks stored rest = .error .missingData := by
  rw [processChunks]
  have hc : chunkSize = 4096 := rfl
  have hh : hmacSize = 64 := rfl
  rw [dif_neg (by omega)]
  rw [if_pos h]

theorem processChunks_ok_aux :
    ∀ (n : Nat) (stored rest : List Byte), rest.length ≤ n →
      hmacSize ≤ rest.length →
      processChunks stored rest =
        .ok (stored ++ rest.take (rest.length - hmacSize),
          rest.drop (rest.length - hmacSize)) := by
  intro n
  induction n with
  | zero =>
    intro stored rest hle hlen
    have hh : hmacSize = 64 := rfl
    omega
  | succ n ih =>
    intro stored rest hle hlen
    have hc : chunkSize = 4096 := rfl
    have hh : hmacSize = 64 := rfl
    rw [processChunks]
    by_cases hch : chunkSize ≤ rest.length
    · rw [dif_pos hch]
      have hdl : (rest.drop (chunkSize - hmacSize)).length
          = rest.length - (chunkSize - hmacSize) := by simp
      rw [ih (stored ++ rest.take (chunkSize - hmacSize))
        (rest.drop (chunkSize - hmacSize)) (by omega) (by omega)]
      have e1 : (stored ++ rest.take (chunkSize - hmacSize)) ++
          (rest.drop (chunkSize - hmacSize)).take
            ((rest.drop (chunkSize - hmacSize)).length - hmacSize)
          = stored ++ rest.take (rest.length - hmacSize) := by
        rw [List.append_assoc, ← List.take_add, hdl]
        have e : chunkSize - hmacSize + (rest.length - (chunkSize - hmacSize) - hmacSize)
            = rest.length - hmacSize := by omega
        rw [e]
      have e2 : (rest.drop (chunkSize - hmacSize)).drop
            ((rest.drop (chunkSize - hmacSize)).length - hmacSize)
          = rest.drop (rest.length - hmacSize) := by
        rw [List.drop_drop, hdl]
        have e : chunkSize - hmacSize + (rest.length - (chunkSize - hmacSize) - hmacSize)
            = rest.length - hmacSize := by omega
        rw [e]
      rw [e1, e2]
    · rw [dif_neg hch]
      rw [if_neg (by omega)]

theorem processChunks_ok (stored rest : List Byte) (hlen : hmacSize ≤ rest.length) :
    processChunks stored rest =
      .ok (stored ++ rest.take (rest.length - hmacSize),
        rest.drop (rest.length - hmacSize)) :=
  processChunks_ok_aux rest.length stored rest (Nat.le_refl _) hlen

theorem encrypter_eq (idKey : IdKey) (ks : KeyStream) (mac : MacFn)
    (r password : List Byte) (memory time : Nat) (threads : Byte)
    (salt iv : List Byte) :
    NewEncrypterWithSettings idKey ks mac r password memory time threads salt iv =
      .ok (((⟨time, memory, threads⟩ : Argon2Settings).Encode ++ salt ++ iv)
        ++ ctrXor (ks (DeriveKeys idKey password salt ⟨time, memory, threads⟩).1 iv) 0 r
        ++ mac (DeriveKeys idKey password salt ⟨time, memory, threads⟩).2
            (((⟨time, memory, threads⟩ : Argon2Settings).Encode ++ salt ++ iv)
              ++ ctrXor (ks (DeriveKeys idKey password salt ⟨time, memory, threads⟩).1 iv) 0 r)) := by
  simp [NewEncrypterWithSettings, NewHashReadWriter, HashReadWriter.write,
    HashReadWriter.readAll]

theorem readParameters_ok (idKey : IdKey) (K salt iv rest : List Byte)
    (memory time : Nat) (threads : Byte)
    (hK : K.length ≠ 0) (hs : salt.length = saltSize) (hi : iv.length = blockSize)
    (ht : 1 ≤ time) (ht32 : time < 2 ^ 32) (hm32 : memory < 2 ^ 32) :
    readParameters idKey
      ((⟨time, memory, threads⟩ : Argon2Settings).Encode ++ (salt ++ (iv ++ rest))) K =
      .ok ((DeriveKeys idKey K salt ⟨time, memory, threads⟩).1,
        (DeriveKeys idKey K salt ⟨time, memory, threads⟩).2, iv,
        (⟨time, memory, threads⟩ : Argon2Settings).Encode ++ salt ++ iv, rest) := by
  have henc := encode_length (⟨time, memory, threads⟩ : Argon2Settings)
  have hsalt : saltSize = 32 := rfl
  have hiv : blockSize = 16 := rfl
  have hset : serializedSettingsLength = 9 := rfl
  simp only [readParameters]
  rw [if_neg hK]
  rw [if_neg (by simp only [List.length_append, henc]; omega)]
  rw [List.take_left' henc, List.drop_left' henc]
  rw [settingsFromBytes_encode ⟨time, memory, threads⟩ ht32 hm32]
  rw [if_neg (by simp only [List.length_append, hs]; omega)]
  rw [List.take_left' hs, List.drop_left' hs]
  rw [if_neg (by simp only [List.length_append, hi]; omega)]
  rw [List.take_left' hi, List.drop_left' hi]
  rw [if_neg (by show ¬ (time < 1); omega)]

/-- C1: for every byte sequence P (including the empty sequence), every
non-empty password K, and valid settings S (time cost at least 1, fields in
their Go integer ranges, 32-byte salt and 16-byte IV drawn for the header),
decrypting the output of encrypt(P, K, S) with the same password K yields
exactly P — for any instantiation of the Argon2, CTR-keystream and
HMAC primitives (with the HMAC producing 64-byte digests). -/
theorem claim_C1_round_trip (idKey : IdKey) (ks : KeyStream) (mac : MacFn)
    (hmacLen : ∀ k m, (mac k m).length = hmacSize)
    (P K salt iv : List Byte) (memory time : Nat) (threads : Byte)
    (hK : K ≠ []) (ht : 1 ≤ time) (ht32 : time < 2 ^ 32) (hm32 : memory < 2 ^ 32)
    (hs : salt.length = saltSize) (hi : iv.length = blockSize) :
    (NewEncrypterWithSettings idKey ks mac P K memory time threads salt iv).bind
      (fun c => NewDecrypter idKey ks mac c K) = .ok P := by
  have hK' : K.length ≠ 0 := fun h0 => hK (List.length_eq_zero.mp h0)
  rw [encrypter_eq]
  simp only [Except.bind]
  have hdl : (mac (DeriveKeys idKey K salt ⟨time, memory, threads⟩).2
      (((⟨time, memory, threads⟩ : Argon2Settings).Encode ++ salt ++ iv)
        ++ ctrXor (ks (DeriveKeys idKey K salt ⟨time, memory, threads⟩).1 iv) 0 P)).length
      = hmacSize := hmacLen _ _
  simp only [NewDecrypter]
  rw [show ((⟨time, memory, threads⟩ : Argon2Settings).Encode ++ salt ++ iv)
        ++ ctrXor (ks (DeriveKeys idKey K salt ⟨time, memory, threads⟩).1 iv) 0 P
        ++ mac (DeriveKeys idKey K salt ⟨time, memory, threads⟩).2
          (((⟨time, memory, threads⟩ : Argon2Settings).Encode ++ salt ++ iv)
            ++ ctrXor (ks (DeriveKeys idKey K salt ⟨time, memory, threads⟩).1 iv) 0 P)
      = (⟨time, memory, threads⟩ : Argon2Settings).Encode ++ (salt ++ (iv ++
          (ctrXor (ks (DeriveKeys idKey K salt ⟨time, memory, threads⟩).1 iv) 0 P
            ++ mac (DeriveKeys idKey K salt ⟨time, memory, threads⟩).2
              (((⟨time, memory, threads⟩ : Argon2Settings).Encode ++ salt ++ iv)
                ++ ctrXor (ks (DeriveKeys idKey K salt ⟨time, memory, threads⟩).1 iv) 0 P))))
      from by simp [List.append_assoc]]
  rw [readParameters_ok idKey K salt iv _ memory time threads hK' hs hi ht ht32 hm32]
  simp only [processBody]
  rw [processChunks_ok [] _ (by
    simp only [List.length_append, hdl]
    have h64 : hmacSize = 64 := rfl
    omega)]
  have harith : (ctrXor (ks (DeriveKeys idKey K salt ⟨time, memory, threads⟩).1 iv) 0 P
      ++ mac (DeriveKeys idKey K salt ⟨time, memory, threads⟩).2
        (((⟨time, memory, threads⟩ : Argon2Settings).Encode ++ salt ++ iv)
          ++ ctrXor (ks (DeriveKeys idKey K salt ⟨time, memory, threads⟩).1 iv) 0 P)).length
        - hmacSize
      = (ctrXor (ks (DeriveKeys idKey K salt ⟨time, memory, threads⟩).1 iv) 0 P).length := by
    simp only [List.length_append, hdl]
    omega
  rw [harith, List.take_left, List.drop_left]
  simp [ctrXor_ctrXor]

/-- C2: whenever the parameter phase of decrypt succeeds and the remainder
of the stream is long enough to contain a trailer, a mismatch between the
digest computed over header-then-body and the claimed 64-byte trailer makes
decrypt fail with the single authentication-failed error and return no
plaintext stream at all. -/
theorem claim_C2_auth_failure (idKey : IdKey) (ks : KeyStream) (mac : MacFn)
    (input K aesKey hmacKey iv header rest : List Byte)
    (hrp : readParameters idKey input K = .ok (aesKey, hmacKey, iv, header, rest))
    (hlen : hmacSize ≤ rest.length)
    (hne : mac hmacKey (header ++ rest.take (rest.length - hmacSize))
      ≠ rest.drop (rest.length - hmacSize)) :
    NewDecrypter idKey ks mac input K = .error .failedAuthentication := by
  simp only [NewDecrypter, hrp, processBody]
  rw [processChunks_ok [] rest hlen]
  simp only [List.nil_append]
  rw [if_neg hne]

/-- C4: for every decrypt input whose parameter phase succeeds, leaving a
remainder of length L after the 57 header bytes: if L is below the trailer
size decrypt fails with the missing-data error, and otherwise the chunked
lookahead loop feeds exactly the first L - 64 remainder bytes to the
persistent store and digest sink and takes exactly the last 64 bytes as the
claimed trailer — for every L, regardless of alignment with the 4096-byte
chunk size. -/
theorem claim_C4_trailer_split (idKey : IdKey) (ks : KeyStream) (mac : MacFn)
    (input K aesKey hmacKey iv header rest : List Byte)
    (hrp : readParameters idKey input K = .ok (aesKey, hmacKey, iv, header, rest)) :
    (rest.length < hmacSize →
      NewDecrypter idKey ks mac input K = .error .missingData) ∧
    (hmacSize ≤ rest.length →
      processBody rest = .ok (rest.take (rest.length - hmacSize),
        rest.drop (rest.length - hmacSize))) := by
  constructor
  · intro hlt
    simp only [NewDecrypter, hrp, processBody]
    rw [processChunks_missing [] rest hlt]
  · intro hge
    simp only [processBody]
    rw [processChunks_ok [] rest hge]
    simp only [List.nil_append]

/-- C3, counterexample: the explicit-settings entry point accepts an empty
password — it does not fail with the passphrase-empty error (it succeeds),
so the claim that both entry points reject an empty password is false. -/
theorem claim_C3_cex :
    NewEncrypterWithSettings idKeyZero ksZero macZero [1, 2, 3] []
        defaultArgon2Memory defaultArgon2Time defaultArgon2Threads
        (List.replicate 32 0) (List.replicate 16 0)
      ≠ .error .passPhraseEmpty := by
  rw [encrypter_eq]
  simp

/-- C3, amended: for every source stream, salt and IV draw, and settings,
the default-settings entry point rejects the empty password immediately
with the passphrase-empty error (its result is a constant, independent of
the source stream and of the random draws, so no randomness and no source
I/O can influence it), while the explicit-settings entry point performs no
empty-password check and succeeds with an empty password. -/
theorem claim_C3_empty_password (idKey : IdKey) (ks : KeyStream) (mac : MacFn)
    (r salt iv : List Byte) (memory time : Nat) (threads : Byte) :
    NewEncrypter idKey ks mac r [] salt iv = .error .passPhraseEmpty ∧
    (NewEncrypterWithSettings idKey ks mac r [] memory time threads salt iv).isOk
      = true := by
  constructor
  · simp [NewEncrypter]
  · rw [encrypter_eq]
    rfl

/-- C5: for every plaintext, the encrypter's drained output stream is, in
order, the 57 header bytes (9-byte settings encoding, then 32-byte salt,
then 16-byte IV), then the ciphertext body (CTR keystream XOR plaintext,
same length as the plaintext), then — only after the body — the 64-byte
digest, computed over the header bytes followed by the body bytes with the
header fed into the digest sink before any body byte. -/
theorem claim_C5_output_layout (idKey : IdKey) (ks : KeyStream) (mac : MacFn)
    (r password salt iv : List Byte) (memory time : Nat) (threads : Byte)
    (hmacLen : ∀ k m, (mac k m).length = hmacSize)
    (hs : salt.length = saltSize) (hi : iv.length = blockSize) :
    NewEncrypterWithSettings idKey ks mac r password memory time threads salt iv =
      .ok (((⟨time, memory, threads⟩ : Argon2Settings).Encode ++ salt ++ iv)
        ++ ctrXor (ks (DeriveKeys idKey password salt ⟨time, memory, threads⟩).1 iv) 0 r
        ++ mac (DeriveKeys idKey password salt ⟨time, memory, threads⟩).2
            (((⟨time, memory, threads⟩ : Argon2Settings).Encode ++ salt ++ iv)
              ++ ctrXor (ks (DeriveKeys idKey password salt ⟨time, memory, threads⟩).1 iv) 0 r))
    ∧ ((⟨time, memory, threads⟩ : Argon2Settings).Encode).length = 9
    ∧ (((⟨time, memory, threads⟩ : Argon2Settings).Encode ++ salt ++ iv)).length = 57
    ∧ (ctrXor (ks (DeriveKeys idKey password salt ⟨time, memory, threads⟩).1 iv) 0 r).length
        = r.length
    ∧ (mac (DeriveKeys idKey password salt ⟨time, memory, threads⟩).2
        (((⟨time, memory, threads⟩ : Argon2Settings).Encode ++ salt ++ iv)
          ++ ctrXor (ks (DeriveKeys idKey password salt ⟨time, memory, threads⟩).1 iv) 0 r)).length
        = 64 := by
  refine ⟨encrypter_eq idKey ks mac r password memory time threads salt iv,
    encode_length _, ?_, ctrXor_length _ _ _, hmacLen _ _⟩
  simp only [List.length_append, encode_length, hs, hi]
  rfl

/-- C6, counterexample: the key-derivation request length the code passes to
Argon2 is `saltSize + hmacSize` = 96 bytes, not the claimed 64; with a probe
Argon2 instantiation that records the requested length in every output
byte, both derived keys come out as 32 copies of the byte 96. -/
theorem claim_C6_cex :
    DeriveKeys idKeyProbe [] [] ⟨1, 1, 1⟩
      = (List.replicate 32 96, List.replicate 32 96)
    ∧ derivedKeyRequestLength ≠ 64 := by
  constructor
  · decide
  · decide

/-- C6, amended: for every password, salt, and settings, DeriveKeys invokes
the key-derivation function requesting exactly 96 bytes of output
(`saltSize + hmacSize`) and splits that output as bytes [0:32) for the
cipher key and bytes [32:64) for the MAC key, discarding the rest. -/
theorem claim_C6_key_split (idKey : IdKey) (password salt : List Byte)
    (settings : Argon2Settings) :
    derivedKeyRequestLength = 96 ∧
    DeriveKeys idKey password salt settings =
      ((idKey password salt settings.Time settings.Memory settings.Threads 96).take 32,
       ((idKey password salt settings.Time settings.Memory settings.Threads 96).take 64).drop 32) := by
  constructor
  · rfl
  · rfl

/-- C7: the digest sink-source is a two-state machine: while accumulating
(done = false), every write feeds the underlying hash and returns without
error; the first read finalizes the hash, transitions to the sealed state
and serves the digest bytes; in the sealed state reads serve the remaining
stored digest bytes without re-finalizing; and after any read the object is
sealed and every write fails with the write-after-read error. -/
theorem claim_C7_hash_read_writer (h : HashReadWriter) (p : List Byte) (n : Nat) :
    (h.done = false → h.write p = .ok { h with written := h.written ++ p }) ∧
    (h.done = false → h.read n = ((h.mac h.written).take n,
      { h with done := true, checksum := (h.mac h.written).drop n })) ∧
    (h.done = true → h.read n = (h.checksum.take n,
      { h with checksum := h.checksum.drop n })) ∧
    (h.read n).2.done = true ∧
    (h.read n).2.write p = .error .writeAfterRead := by
  refine ⟨?_, ?_, ?_, ?_, ?_⟩
  · intro hd
    simp [HashReadWriter.write, hd]
  · intro hd
    simp [HashReadWriter.read, hd]
  · intro hd
    simp [HashReadWriter.read, hd]
  · by_cases hd : h.done <;> simp [HashReadWriter.read, hd]
  · by_cases hd : h.done <;>
      simp [HashReadWriter.write, HashReadWriter.read, hd]

/-- C8, counterexample: a decrypt stream carrying the 9 settings bytes with
time = 0 and truncated right after them fails with the salt-read error, not
with the too-few-rounds error, because the time check only happens after
the salt and IV have been read. -/
theorem claim_C8_cex :
    NewDecrypter idKeyZero ksZero macZero (List.replicate 9 0) [1]
        = .error .readSaltFailed
    ∧ NewDecrypter idKeyZero ksZero macZero (List.replicate 9 0) [1]
        ≠ .error .tooLessRounds := by
  have h1 : NewDecrypter idKeyZero ksZero macZero (List.replicate 9 0) [1]
      = .error .readSaltFailed := rfl
  refine ⟨h1, fun hcon => ?_⟩
  rw [h1] at hcon
  simp at hcon

/-- C8, amended: during decrypt the check that settings time is at least 1
is performed after decoding the 9 settings bytes and after reading the 32
salt bytes and 16 IV bytes: for every input of at least 57 bytes whose
first 9 bytes decode to time = 0 (and any non-empty password and Argon2
instantiation), the parameter phase fails with the too-few-rounds error
before key derivation. -/
theorem claim_C8_rounds_check (idKey : IdKey) (input K : List Byte)
    (hK : K.length ≠ 0) (hlen : 57 ≤ input.length)
    (htime : (SettingsFromBytes (input.take serializedSettingsLength)).Time < 1) :
    readParameters idKey input K = .error .tooLessRounds := by
  have hset : serializedSettingsLength = 9 := rfl
  have hsalt : saltSize = 32 := rfl
  have hiv : blockSize = 16 := rfl
  simp only [readParameters]
  rw [if_neg hK]
  rw [if_neg (by omega)]
  rw [if_neg (by simp only [List.length_drop]; omega)]
  rw [if_neg (by simp only [List.length_drop]; omega)]
  rw [if_pos htime]

/-- C9: for every 9-byte input b, encoding the settings record obtained by
decoding b reproduces b exactly, and decoding any input of fewer than
9 bytes fails with the truncated-settings error. -/
theorem claim_C9_codec_round_trip (b c : List Byte) (hb : b.length = 9)
    (hc : c.length < 9) :
    (∃ s, DeserializeSettings b = .ok s ∧ s.Encode = b) ∧
    DeserializeSettings c = .error .truncatedSettings := by
  constructor
  · rcases b with _ | ⟨a0, _ | ⟨a1, _ | ⟨a2, _ | ⟨a3, _ | ⟨a4, _ | ⟨a5, _ | ⟨a6, _ | ⟨a7, _ | ⟨a8, tl⟩⟩⟩⟩⟩⟩⟩⟩⟩ <;>
      simp only [List.length_cons, List.length_nil] at hb <;>
      try omega
    have htl : tl = [] := List.length_eq_zero.mp (by omega)
    subst htl
    exact ⟨⟨leVal a5 a6 a7 a8, leVal a0 a1 a2 a3, a4⟩, rfl,
      by simp [Argon2Settings.Encode, toLE32_leVal]⟩
  · rcases c with _ | ⟨c0, _ | ⟨c1, _ | ⟨c2, _ | ⟨c3, _ | ⟨c4, _ | ⟨c5, _ | ⟨c6, _ | ⟨c7, _ | ⟨c8, tl⟩⟩⟩⟩⟩⟩⟩⟩⟩
    all_goals first
    | rfl
    | (exfalso; simp only [List.length_cons] at hc; omega)

/-- C10: settings decoding is total on every input of at least 9 bytes — it
never fails for such inputs, accepts every byte pattern, and its result
depends only on the first 9 bytes, ignoring any bytes beyond the 9th. -/
theorem claim_C10_decode_total (b : List Byte) (hb : 9 ≤ b.length) :
    (∃ s, DeserializeSettings b = .ok s) ∧
    DeserializeSettings b = DeserializeSettings (b.take 9) := by
  rcases b with _ | ⟨a0, _ | ⟨a1, _ | ⟨a2, _ | ⟨a3, _ | ⟨a4, _ | ⟨a5, _ | ⟨a6, _ | ⟨a7, _ | ⟨a8, tl⟩⟩⟩⟩⟩⟩⟩⟩⟩
  all_goals first
  | (exact ⟨⟨_, rfl⟩, rfl⟩)
  | (exfalso; simp only [List.length_cons, List.length_nil] at hb; omega)

/-- Witness for C1: a concrete three-byte plaintext encrypted with password
[7], time cost 1, memory 5, four threads, and all-zero salt and IV round
trips through decrypt under trivial primitive instantiations. -/
theorem claim_C1_witness :
    (NewEncrypterWithSettings idKeyZero ksZero macZero [1, 2, 3] [7] 5 1 4
        (List.replicate 32 0) (List.replicate 16 0)).bind
      (fun c => NewDecrypter idKeyZero ksZero macZero c [7]) = .ok [1, 2, 3] :=
  claim_C1_round_trip idKeyZero ksZero macZero (fun _ _ => rfl) [1, 2, 3] [7]
    (List.replicate 32 0) (List.replicate 16 0) 5 1 4 (by decide) (by decide)
    (by norm_num) (by norm_num) rfl rfl

/-- Witness for C2: a concrete stream with a valid 57-byte header followed
by 64 trailer bytes that do not match the digest fails with the
authentication error. -/
theorem claim_C2_witness :
    NewDecrypter idKeyZero ksZero macZero
        ([5, 0, 0, 0, 4, 1, 0, 0, 0] ++ List.replicate 32 0
          ++ List.replicate 16 0 ++ List.replicate 64 1) [7]
      = .error .failedAuthentication :=
  claim_C2_auth_failure idKeyZero ksZero macZero
    ([5, 0, 0, 0, 4, 1, 0, 0, 0] ++ List.replicate 32 0
      ++ List.replicate 16 0 ++ List.replicate 64 1) [7]
    (List.replicate 32 0) (List.replicate 32 0) (List.replicate 16 0)
    ([5, 0, 0, 0, 4, 1, 0, 0, 0] ++ List.replicate 32 0 ++ List.replicate 16 0)
    (List.replicate 64 1) rfl (by decide) (by decide)

/-- Witness for C4: a remainder of 63 bytes (one short of a trailer) fails
with the missing-data error, and a remainder of 100 bytes is split into its
first 36 bytes for the store and its last 64 bytes as the claimed trailer. -/
theorem claim_C4_witness :
    NewDecrypter idKeyZero ksZero macZero
        ([5, 0, 0, 0, 4, 1, 0, 0, 0] ++ List.replicate 32 0
          ++ List.replicate 16 0 ++ List.replicate 63 1) [7]
      = .error .missingData ∧
    processBody (List.replicate 100 1) =
      .ok ((List.replicate 100 1).take ((List.replicate 100 1).length - hmacSize),
        (List.replicate 100 1).drop ((List.replicate 100 1).length - hmacSize)) :=
  ⟨(claim_C4_trailer_split idKeyZero ksZero macZero
      ([5, 0, 0, 0, 4, 1, 0, 0, 0] ++ List.replicate 32 0
        ++ List.replicate 16 0 ++ List.replicate 63 1) [7]
      (List.replicate 32 0) (List.replicate 32 0) (List.replicate 16 0)
      ([5, 0, 0, 0, 4, 1, 0, 0, 0] ++ List.replicate 32 0 ++ List.replicate 16 0)
      (List.replicate 63 1) (by decide)).1 (by decide),
   (claim_C4_trailer_split idKeyZero ksZero macZero
      ([5, 0, 0, 0, 4, 1, 0, 0, 0] ++ List.replicate 32 0
        ++ List.replicate 16 0 ++ List.replicate 100 1) [7]
      (List.replicate 32 0) (List.replicate 32 0) (List.replicate 16 0)
      ([5, 0, 0, 0, 4, 1, 0, 0, 0] ++ List.replicate 32 0 ++ List.replicate 16 0)
      (List.replicate 100 1) (by decide)).2 (by decide)⟩

/-- Witness for C5: the concrete layout equation and length facts at a
two-byte plaintext under trivial primitive instantiations. -/
theorem claim_C5_witness :
    NewEncrypterWithSettings idKeyZero ksZero macZero [9, 8] [7] 5 1 4
        (List.replicate 32 0) (List.replicate 16 0) =
      .ok (((⟨1, 5, 4⟩ : Argon2Settings).Encode ++ List.replicate 32 0 ++ List.replicate 16 0)
        ++ ctrXor (ksZero (DeriveKeys idKeyZero [7] (List.replicate 32 0) ⟨1, 5, 4⟩).1
            (List.replicate 16 0)) 0 [9, 8]
        ++ macZero (DeriveKeys idKeyZero [7] (List.replicate 32 0) ⟨1, 5, 4⟩).2
            (((⟨1, 5, 4⟩ : Argon2Settings).Encode ++ List.replicate 32 0 ++ List.replicate 16 0)
              ++ ctrXor (ksZero (DeriveKeys idKeyZero [7] (List.replicate 32 0) ⟨1, 5, 4⟩).1
                  (List.replicate 16 0)) 0 [9, 8]))
    ∧ ((⟨1, 5, 4⟩ : Argon2Settings).Encode).length = 9
    ∧ (((⟨1, 5, 4⟩ : Argon2Settings).Encode ++ List.replicate 32 0 ++ List.replicate 16 0)).length = 57
    ∧ (ctrXor (ksZero (DeriveKeys idKeyZero [7] (List.replicate 32 0) ⟨1, 5, 4⟩).1
        (List.replicate 16 0)) 0 [9, 8]).length = [9, 8].length
    ∧ (macZero (DeriveKeys idKeyZero [7] (List.replicate 32 0) ⟨1, 5, 4⟩).2
        (((⟨1, 5, 4⟩ : Argon2Settings).Encode ++ List.replicate 32 0 ++ List.replicate 16 0)
          ++ ctrXor (ksZero (DeriveKeys idKeyZero [7] (List.replicate 32 0) ⟨1, 5, 4⟩).1
              (List.replicate 16 0)) 0 [9, 8])).length = 64 :=
  claim_C5_output_layout idKeyZero ksZero macZero [9, 8] [7]
    (List.replicate 32 0) (List.replicate 16 0) 5 1 4 (fun _ _ => rfl) rfl rfl

/-- Witness for C7: on a concrete accumulating sink, a write succeeds and
appends to the hash input, the first read seals and serves the digest, and
a write after a read fails with the write-after-read error. -/
theorem claim_C7_witness :
    hrw0.write [3] = .ok { hrw0 with written := hrw0.written ++ [3] } ∧
    hrw0.read 1 = ((hrw0.mac hrw0.written).take 1,
      { hrw0 with done := true, checksum := (hrw0.mac hrw0.written).drop 1 }) ∧
    (hrw0.read 1).2.write [3] = .error .writeAfterRead :=
  ⟨(claim_C7_hash_read_writer hrw0 [3] 1).1 rfl,
   (claim_C7_hash_read_writer hrw0 [3] 1).2.1 rfl,
   (claim_C7_hash_read_writer hrw0 [3] 1).2.2.2.2⟩

/-- Witness for C8 (amended): a 57-byte all-zero stream decodes to time = 0
and fails with the too-few-rounds error. -/
theorem claim_C8_witness :
    readParameters idKeyZero (List.replicate 57 0) [7] = .error .tooLessRounds :=
  claim_C8_rounds_check idKeyZero (List.replicate 57 0) [7] (by decide)
    (by decide) (by decide)

/-- Witness for C9: the all-threes 9-byte input decodes and re-encodes to
itself, and the 1-byte input fails with the truncated-settings error. -/
theorem claim_C9_witness :
    (∃ s, DeserializeSettings (List.replicate 9 3) = .ok s
      ∧ s.Encode = List.replicate 9 3) ∧
    DeserializeSettings [0] = .error .truncatedSettings :=
  claim_C9_codec_round_trip (List.replicate 9 3) [0] (by decide) (by decide)

/-- Witness for C10: a 12-byte input decodes successfully and to the same
result as its first 9 bytes. -/
theorem claim_C10_witness :
    (∃ s, DeserializeSettings (List.replicate 12 7) = .ok s) ∧
    DeserializeSettings (List.replicate 12 7)
      = DeserializeSettings ((List.replicate 12 7).take 9) :=
  claim_C10_decode_total (List.replicate 12 7) (by decide)

end Iocrypter
